import Mathlib

/-!
Verification development for the CLN HTLC interceptor
(`cln_interceptor.go` of the lspd repository).

The Go source is shallowly embedded: bytes are `Nat` values below 256,
byte strings are `List Nat`, hex strings are `List Char`, and the
fallible Go functions return `Option`.  The embedding follows the
source function by function:

* `hexDecodeGo` / `hexEncode` model `encoding/hex`;
* `readBigSize` / `writeBigSize` model `sphinx.ReadVarInt` and
  `tlv.WriteVarInt` (BOLT BigSize varints with canonicality checks);
* `decodeTlvStream` models `tlv.Stream.DecodeWithParsedTypes` on a
  stream with no registered records;
* `encodePayloadWithNextHop` models the function of the same name;
* `mapFailureCode`, `defaultResolution`, `failWithCode`,
  `resumeWithOnion`, `buildResolution`, `handleHtlc` model the
  resolution builders and the per-event goroutine body;
* `nextHopFromLookup` models the channel-graph label lookup;
* `sysStep` / `sysRun` give an interleaving semantics for the receive
  loop and `Stop`;
* `interceptAttempts` models the reconnect loop's one-shot readiness
  barrier (`initWg`).
-/

/-! ### Hex encoding and decoding (`encoding/hex`) -/

/-- Value of one hex digit, as accepted by Go's `hex.Decode`
(`0-9`, `a-f`, `A-F`). -/
def hexDigitVal (c : Char) : Option Nat :=
  if '0' ≤ c ∧ c ≤ '9' then some (c.toNat - '0'.toNat)
  else if 'a' ≤ c ∧ c ≤ 'f' then some (c.toNat - 'a'.toNat + 10)
  else if 'A' ≤ c ∧ c ≤ 'F' then some (c.toNat - 'A'.toNat + 10)
  else none

/-- Go's `hex.DecodeString` decodes full pairs of hex digits left to
right and stops at the first invalid digit or at an odd trailing digit.
It returns the bytes decoded so far together with an `ok` flag that is
`false` exactly when Go returns a non-nil error. -/
def hexDecodeGo : List Char → (List Nat × Bool)
  | [] => ([], true)
  | [_] => ([], false)
  | c1 :: c2 :: rest =>
    match hexDigitVal c1, hexDigitVal c2 with
    | some h, some lo =>
      let (bs, ok) := hexDecodeGo rest
      ((h * 16 + lo) :: bs, ok)
    | _, _ => ([], false)

/-- Successful result of `hex.DecodeString`: `none` models a non-nil
error. -/
def hexDecodeString (s : List Char) : Option (List Nat) :=
  let (bs, ok) := hexDecodeGo s
  if ok then some bs else none

/-- Lowercase hex digit used by Go's `hex.EncodeToString`. -/
def toHexDigit (n : Nat) : Char :=
  if n < 10 then Char.ofNat (48 + n) else Char.ofNat (87 + n)

/-- Go's `hex.EncodeToString`: two lowercase digits per byte. -/
def hexEncode : List Nat → List Char
  | [] => []
  | b :: bs => toHexDigit (b / 16 % 16) :: toHexDigit (b % 16) :: hexEncode bs

/-! ### Big-endian fixed width encodings -/

/-- Big-endian two byte encoding (`binary.BigEndian.PutUint16`). -/
def be2 (n : Nat) : List Nat := [n / 256 % 256, n % 256]

/-- Big-endian four byte encoding (`binary.BigEndian.PutUint32`). -/
def be4 (n : Nat) : List Nat :=
  [n / 16777216 % 256, n / 65536 % 256, n / 256 % 256, n % 256]

/-- Big-endian eight byte encoding (`binary.BigEndian.PutUint64`),
used both by the BigSize `0xff` case and by `tlv.EUint64`, the value
encoder of `record.NewNextHopIDRecord`. -/
def be8 (n : Nat) : List Nat :=
  [n / 72057594037927936 % 256, n / 281474976710656 % 256,
   n / 1099511627776 % 256, n / 4294967296 % 256,
   n / 16777216 % 256, n / 65536 % 256, n / 256 % 256, n % 256]

/-! ### BigSize varints (`sphinx.ReadVarInt`, `tlv.ReadVarInt`,
`tlv.WriteVarInt`) -/

/-- BigSize varint reader with the canonicality checks of
`sphinx.ReadVarInt` and `tlv.ReadVarInt`: discriminants `0xfd`,
`0xfe`, `0xff` announce 2, 4 and 8 following big-endian bytes and the
decoded value must not fit a shorter form.  Returns the value and the
unread rest; `none` models a read error. -/
def readBigSize : List Nat → Option (Nat × List Nat)
  | [] => none
  | d :: rest =>
    if d = 253 then
      match rest with
      | b1 :: b0 :: r =>
        let v := b1 * 256 + b0
        if v < 253 then none else some (v, r)
      | _ => none
    else if d = 254 then
      match rest with
      | b3 :: b2 :: b1 :: b0 :: r =>
        let v := ((b3 * 256 + b2) * 256 + b1) * 256 + b0
        if v < 65536 then none else some (v, r)
      | _ => none
    else if d = 255 then
      match rest with
      | b7 :: b6 :: b5 :: b4 :: b3 :: b2 :: b1 :: b0 :: r =>
        let v := ((((((b7 * 256 + b6) * 256 + b5) * 256 + b4) * 256 + b3)
          * 256 + b2) * 256 + b1) * 256 + b0
        if v < 4294967296 then none else some (v, r)
      | _ => none
    else some (d, rest)

/-- BigSize varint writer (`tlv.WriteVarInt`). -/
def writeBigSize (n : Nat) : List Nat :=
  if n < 253 then [n]
  else if n < 65536 then 253 :: be2 n
  else if n < 4294967296 then 254 :: be4 n
  else 255 :: be8 n

/-! ### Basic lemmas about the byte level primitives -/

theorem take_len_append {α : Type} (l₁ l₂ : List α) :
    (l₁ ++ l₂).take l₁.length = l₁ := by
  induction l₁ with
  | nil => simp
  | cons a t ih => simp [ih]

theorem drop_len_append {α : Type} (l₁ l₂ : List α) :
    (l₁ ++ l₂).drop l₁.length = l₂ := by
  induction l₁ with
  | nil => simp
  | cons a t ih => simp [ih]

theorem writeBigSize_ne_nil (n : Nat) : writeBigSize n ≠ [] := by
  unfold writeBigSize be2 be4 be8
  split
  · simp
  · split
    · simp
    · split <;> simp

theorem writeBigSize_bytes_lt (n : Nat) : ∀ b ∈ writeBigSize n, b < 256 := by
  unfold writeBigSize be2 be4 be8
  split
  · intro b hb; simp at hb; omega
  · split
    · intro b hb; simp at hb; omega
    · split
      · intro b hb; simp at hb; omega
      · intro b hb; simp at hb; omega

/-- Reading back a written BigSize value recovers it unchanged when it
fits 64 bits. -/
theorem readBigSize_writeBigSize (n : Nat) (h : n < 18446744073709551616)
    (rest : List Nat) :
    readBigSize (writeBigSize n ++ rest) = some (n, rest) := by
  unfold writeBigSize be2 be4 be8
  by_cases h1 : n < 253
  · have e1 : ¬ n = 253 := by omega
    have e2 : ¬ n = 254 := by omega
    have e3 : ¬ n = 255 := by omega
    simp [h1, readBigSize, e1, e2, e3]
  · by_cases h2 : n < 65536
    · have : n / 256 % 256 * 256 + n % 256 = n := by omega
      simp [h1, h2, readBigSize, this]
    · by_cases h3 : n < 4294967296
      · have : ((n / 16777216 % 256 * 256 + n / 65536 % 256) * 256
          + n / 256 % 256) * 256 + n % 256 = n := by omega
        simp [h1, h2, h3, readBigSize, this]
      · have : ((((((n / 72057594037927936 % 256 * 256
          + n / 281474976710656 % 256) * 256
          + n / 1099511627776 % 256) * 256
          + n / 4294967296 % 256) * 256
          + n / 16777216 % 256) * 256
          + n / 65536 % 256) * 256
          + n / 256 % 256) * 256 + n % 256 = n := by omega
        simp [h1, h2, h3, readBigSize, this]

/-- A successful BigSize read consumes at least one byte and leaves a
suffix of the input. -/
theorem readBigSize_sound (l : List Nat) (v : Nat) (r : List Nat)
    (hb : ∀ b ∈ l, b < 256) (h : readBigSize l = some (v, r)) :
    v < 18446744073709551616 ∧ (∀ b ∈ r, b < 256) ∧ r.length < l.length := by
  match l with
  | [] => simp [readBigSize] at h
  | d :: rest =>
    have hd : d < 256 := hb d (by simp)
    have hrest : ∀ b ∈ rest, b < 256 := fun b hbr => hb b (by simp [hbr])
    simp only [readBigSize] at h
    split at h
    · -- discriminant 0xfd
      split at h
      case _ b1 b0 r' =>
        have g1 : b1 < 256 := hrest b1 (by simp)
        have g0 : b0 < 256 := hrest b0 (by simp)
        have hr' : ∀ b ∈ r', b < 256 := fun b hbr => hrest b (by simp [hbr])
        split at h
        · simp at h
        · simp only [Option.some.injEq, Prod.mk.injEq] at h
          obtain ⟨hv, hr⟩ := h
          subst hv
          subst hr
          exact ⟨by omega, hr', by simp only [List.length_cons]; omega⟩
      case _ => simp at h
    · split at h
      · -- discriminant 0xfe
        split at h
        case _ b3 b2 b1 b0 r' =>
          have g3 : b3 < 256 := hrest b3 (by simp)
          have g2 : b2 < 256 := hrest b2 (by simp)
          have g1 : b1 < 256 := hrest b1 (by simp)
          have g0 : b0 < 256 := hrest b0 (by simp)
          have hr' : ∀ b ∈ r', b < 256 := fun b hbr => hrest b (by simp [hbr])
          split at h
          · simp at h
          · simp only [Option.some.injEq, Prod.mk.injEq] at h
            obtain ⟨hv, hr⟩ := h
            subst hv
            subst hr
            exact ⟨by omega, hr', by simp only [List.length_cons]; omega⟩
        case _ => simp at h
      · split at h
        · -- discriminant 0xff
          split at h
          case _ b7 b6 b5 b4 b3 b2 b1 b0 r' =>
            have g7 : b7 < 256 := hrest b7 (by simp)
            have g6 : b6 < 256 := hrest b6 (by simp)
            have g5 : b5 < 256 := hrest b5 (by simp)
            have g4 : b4 < 256 := hrest b4 (by simp)
            have g3 : b3 < 256 := hrest b3 (by simp)
            have g2 : b2 < 256 := hrest b2 (by simp)
            have g1 : b1 < 256 := hrest b1 (by simp)
            have g0 : b0 < 256 := hrest b0 (by simp)
            have hr' : ∀ b ∈ r', b < 256 := fun b hbr => hrest b (by simp [hbr])
            split at h
            · simp at h
            · simp only [Option.some.injEq, Prod.mk.injEq] at h
              obtain ⟨hv, hr⟩ := h
              subst hv
              subst hr
              exact ⟨by omega, hr', by simp only [List.length_cons]; omega⟩
          case _ => simp at h
        · -- single byte value
          simp only [Option.some.injEq, Prod.mk.injEq] at h
          obtain ⟨hv, hr⟩ := h
          subst hv
          subst hr
          exact ⟨by omega, hrest, by simp⟩

/-! ### TLV streams (`lnd/tlv`)

`tlv.Stream.DecodeWithParsedTypes` is called on a stream with no
registered records (`tlv.NewStream()`), so every record lands in the
parsed-types map with its raw value bytes.  The decoder requires
strictly ascending types (`ErrStreamNotCanonical`), rejects record
values longer than `MaxRecordSize = 65535` (`ErrRecordTooLarge`), and
fails on truncation.  Clean end of input at a type boundary terminates
the stream. -/

/-- One decoding pass of `tlv.Stream.decode`, structurally recursive on
a fuel argument.  Each iteration consumes at least one input byte, so
fuel `l.length + 1` is never exhausted (`decodeTlvGo_fuel_irrelevant`
below); the fuel is only a termination device, not part of the model. -/
def decodeTlvGo : Nat → List Nat → Nat → Option (List (Nat × List Nat))
  | _, [], _ => some []
  | 0, _ :: _, _ => none
  | fuel + 1, d :: tl, minT =>
    match readBigSize (d :: tl) with
    | none => none
    | some (typ, r1) =>
      if typ < minT then none
      else
        match readBigSize r1 with
        | none => none
        | some (len, r2) =>
          if 65535 < len then none
          else if r2.length < len then none
          else
            match decodeTlvGo fuel (r2.drop len) (typ + 1) with
            | none => none
            | some rs => some ((typ, r2.take len) :: rs)

/-- `tlv.Stream.DecodeWithParsedTypes` on a record-less stream: the
ordered list of (type, raw value) pairs.  `minT` is the lower bound on
the next admissible type (`min` in the Go source, `0` at entry). -/
def decodeTlvStream (l : List Nat) (minT : Nat) : Option (List (Nat × List Nat)) :=
  decodeTlvGo (l.length + 1) l minT

/-- Serialization of one TLV record by `tlv.Stream.Encode`: BigSize
type, BigSize length, then the raw value bytes. -/
def encodeRecord (r : Nat × List Nat) : List Nat :=
  writeBigSize r.1 ++ writeBigSize r.2.length ++ r.2

/-- Serialization of a record list by `tlv.Stream.Encode`, in list
order. -/
def encodeRecords : List (Nat × List Nat) → List Nat
  | [] => []
  | r :: rs => encodeRecord r ++ encodeRecords rs

/-- Type of the next-hop onion record, `record.NextHopOnionType` (the
BOLT-4 `short_channel_id` type). -/
def nextHopOnionType : Nat := 6

/-- The loop of `encodePayloadWithNextHop` building `uTlvMap`: the
value of the reserved next-hop type is replaced by the 8-byte
big-endian channel id (`record.NewNextHopIDRecord` encoded through
`tlv.EUint64`); every other pair is copied.  No pair is added: a map
without the next-hop type stays without it. -/
def rewriteTlv (recs : List (Nat × List Nat)) (channelId : Nat) : List (Nat × List Nat) :=
  recs.map fun r => if r.1 = nextHopOnionType then (r.1, be8 channelId) else r

/-- Insertion into a type-sorted record list, for `tlv.SortRecords`. -/
def insertRec (r : Nat × List Nat) : List (Nat × List Nat) → List (Nat × List Nat)
  | [] => [r]
  | x :: xs => if r.1 ≤ x.1 then r :: x :: xs else x :: insertRec r xs

/-- `tlv.MapToRecords` sorts the map's entries by ascending type
(`tlv.SortRecords`); the Go map iteration order is irrelevant because
of this sort, so the model sorts the list representation. -/
def sortRecs : List (Nat × List Nat) → List (Nat × List Nat)
  | [] => []
  | x :: xs => insertRec x (sortRecs xs)

/-- Check of `tlv.NewStream`: record types must be strictly ascending
(which also rules out duplicates). -/
def strictAscendB : List (Nat × List Nat) → Bool
  | [] => true
  | [_] => true
  | x :: y :: rs => decide (x.1 < y.1) && strictAscendB (y :: rs)

/-- Parsing phase of `encodePayloadWithNextHop`: read the BigSize
length prefix (`sphinx.ReadVarInt`), read exactly that many inner
payload bytes (`io.ReadFull`, failing when fewer are available), and
decode the inner bytes as a TLV stream. -/
def decodePayload (payload : List Nat) : Option (List (Nat × List Nat)) :=
  match readBigSize payload with
  | none => none
  | some (varInt, rest) =>
    if rest.length < varInt then none
    else decodeTlvStream (rest.take varInt) 0

/-- Model of `encodePayloadWithNextHop`: parse the length-prefixed
inner TLV stream, replace the next-hop record's value by the 8-byte
big-endian target channel id, and re-encode all records in ascending
type order.  The output carries no length prefix, and input bytes
beyond the declared inner length are never read. -/
def encodePayloadWithNextHop (payload : List Nat) (channelId : Nat) : Option (List Nat) :=
  match decodePayload payload with
  | none => none
  | some tlvMap =>
    let tlvRecords := sortRecs (rewriteTlv tlvMap channelId)
    if strictAscendB tlvRecords then some (encodeRecords tlvRecords) else none

/-- Strict ascension of record types starting from a lower bound,
matching the `min` accumulator of `tlv.Stream.decode`. -/
def AscendingFrom : Nat → List (Nat × List Nat) → Prop
  | _, [] => True
  | m, r :: rs => m ≤ r.1 ∧ AscendingFrom (r.1 + 1) rs

/-! ### Lemmas about the TLV stream model -/

/-- Any fuel above the input length computes the same decoding, so
`decodeTlvStream`'s choice of `l.length + 1` is canonical: the fuel is
no part of the modelled behaviour. -/
theorem decodeTlvGo_fuel_irrelevant :
    ∀ f₁ f₂ l m, (∀ b ∈ l, b < 256) → l.length < f₁ → l.length < f₂ →
      decodeTlvGo f₁ l m = decodeTlvGo f₂ l m := by
  intro f₁
  induction f₁ with
  | zero => intro f₂ l m _ h1 _; omega
  | succ n ih =>
    intro f₂ l m hb h1 h2
    match l with
    | [] =>
      match f₂ with
      | 0 => simp at h2
      | k + 1 => rfl
    | d :: tl =>
      match f₂ with
      | 0 => simp at h2
      | k + 1 =>
        simp only [decodeTlvGo]
        cases hrb : readBigSize (d :: tl) with
        | none => rfl
        | some p =>
          obtain ⟨typ, r1⟩ := p
          have hs1 := readBigSize_sound _ _ _ hb hrb
          by_cases htm : typ < m
          · simp [htm]
          · simp only [htm, if_neg, if_false]
            cases hrb2 : readBigSize r1 with
            | none => rfl
            | some q =>
              obtain ⟨len, r2⟩ := q
              have hs2 := readBigSize_sound _ _ _ hs1.2.1 hrb2
              by_cases hbig : 65535 < len
              · simp [hbig]
              · by_cases hshort : r2.length < len
                · simp [hbig, hshort]
                · have hdb : ∀ b ∈ r2.drop len, b < 256 := fun b hbr =>
                    hs2.2.1 b (List.drop_subset _ _ hbr)
                  have hdrop : (r2.drop len).length = r2.length - len := by
                    simp [List.length_drop]
                  have e1 := hs1.2.2
                  have e2 := hs2.2.2
                  simp only [List.length_cons] at h1 h2 e1
                  have hdl1 : (r2.drop len).length < n := by omega
                  have hdl2 : (r2.drop len).length < k := by omega
                  simp only [hbig, hshort, if_neg, if_false]
                  rw [ih k (r2.drop len) (typ + 1) hdb hdl1 hdl2]

/-- Types decoded by `tlv.Stream.decode` ascend strictly starting from
the running lower bound. -/
theorem decodeTlvGo_ascending :
    ∀ fuel l m rs, decodeTlvGo fuel l m = some rs → AscendingFrom m rs := by
  intro fuel
  induction fuel with
  | zero =>
    intro l m rs h
    match l with
    | [] =>
      simp only [decodeTlvGo, Option.some.injEq] at h
      subst h
      trivial
    | _ :: _ => simp [decodeTlvGo] at h
  | succ f ih =>
    intro l m rs h
    match l with
    | [] =>
      simp only [decodeTlvGo, Option.some.injEq] at h
      subst h
      trivial
    | d :: tl =>
      simp only [decodeTlvGo] at h
      cases hrb : readBigSize (d :: tl) with
      | none => rw [hrb] at h; simp at h
      | some p =>
        obtain ⟨typ, r1⟩ := p
        rw [hrb] at h
        simp only at h
        split at h
        · simp at h
        · cases hrb2 : readBigSize r1 with
          | none => rw [hrb2] at h; simp at h
          | some q =>
            obtain ⟨len, r2⟩ := q
            rw [hrb2] at h
            simp only at h
            split at h
            · simp at h
            · split at h
              · simp at h
              · cases hrec : decodeTlvGo f (r2.drop len) (typ + 1) with
                | none => rw [hrec] at h; simp at h
                | some rs₀ =>
                  rw [hrec] at h
                  simp only [Option.some.injEq] at h
                  subst h
                  exact ⟨by omega, ih _ _ _ hrec⟩

/-- Every record decoded from byte input has a 64-bit type and a value
no longer than `MaxRecordSize`. -/
theorem decodeTlvGo_bounds :
    ∀ fuel l m rs, (∀ b ∈ l, b < 256) → decodeTlvGo fuel l m = some rs →
      ∀ p ∈ rs, p.1 < 18446744073709551616 ∧ p.2.length ≤ 65535 := by
  intro fuel
  induction fuel with
  | zero =>
    intro l m rs hb h
    match l with
    | [] =>
      simp only [decodeTlvGo, Option.some.injEq] at h
      subst h
      simp
    | _ :: _ => simp [decodeTlvGo] at h
  | succ f ih =>
    intro l m rs hb h
    match l with
    | [] =>
      simp only [decodeTlvGo, Option.some.injEq] at h
      subst h
      simp
    | d :: tl =>
      simp only [decodeTlvGo] at h
      cases hrb : readBigSize (d :: tl) with
      | none => rw [hrb] at h; simp at h
      | some p =>
        obtain ⟨typ, r1⟩ := p
        have hs1 := readBigSize_sound _ _ _ hb hrb
        rw [hrb] at h
        simp only at h
        split at h
        · simp at h
        · cases hrb2 : readBigSize r1 with
          | none => rw [hrb2] at h; simp at h
          | some q =>
            obtain ⟨len, r2⟩ := q
            have hs2 := readBigSize_sound _ _ _ hs1.2.1 hrb2
            rw [hrb2] at h
            simp only at h
            split at h
            · simp at h
            · split at h
              · simp at h
              · cases hrec : decodeTlvGo f (r2.drop len) (typ + 1) with
                | none => rw [hrec] at h; simp at h
                | some rs₀ =>
                  rw [hrec] at h
                  simp only [Option.some.injEq] at h
                  subst h
                  intro p hp
                  rcases List.mem_cons.mp hp with hhead | htail
                  · subst hhead
                    refine ⟨hs1.1, ?_⟩
                    show (r2.take len).length ≤ 65535
                    have hlt : (r2.take len).length ≤ len := by
                      simp [List.length_take]
                    omega
                  · exact ih _ _ _
                      (fun b hbr => hs2.2.1 b (List.drop_subset _ _ hbr))
                      hrec p htail

/-- Re-decoding an encoded record list recovers it when the types
ascend from the decoder's lower bound, types fit 64 bits, and values
respect `MaxRecordSize`. -/
theorem decodeTlvGo_encodeRecords :
    ∀ rs fuel m, AscendingFrom m rs →
      (∀ p ∈ rs, p.1 < 18446744073709551616 ∧ p.2.length ≤ 65535) →
      (encodeRecords rs).length < fuel →
      decodeTlvGo fuel (encodeRecords rs) m = some rs := by
  intro rs
  induction rs with
  | nil =>
    intro fuel m _ _ _
    simp [encodeRecords, decodeTlvGo]
  | cons r rs' ih =>
    obtain ⟨t, v⟩ := r
    intro fuel m hasc hbound hf
    obtain ⟨hm, hasc'⟩ := hasc
    have ht : t < 18446744073709551616 := (hbound (t, v) (by simp)).1
    have hv : v.length ≤ 65535 := (hbound (t, v) (by simp)).2
    match fuel with
    | 0 => simp at hf
    | f + 1 =>
      obtain ⟨d, tl, hw⟩ : ∃ d tl, writeBigSize t = d :: tl := by
        cases hwt : writeBigSize t with
        | nil => exact absurd hwt (writeBigSize_ne_nil t)
        | cons d tl => exact ⟨d, tl, rfl⟩
      have hshape : encodeRecords ((t, v) :: rs')
          = d :: (tl ++ (writeBigSize v.length ++ (v ++ encodeRecords rs'))) := by
        simp [encodeRecords, encodeRecord, hw, List.append_assoc]
      rw [hshape]
      simp only [decodeTlvGo]
      have hr1 : readBigSize
          (d :: (tl ++ (writeBigSize v.length ++ (v ++ encodeRecords rs'))))
          = some (t, writeBigSize v.length ++ (v ++ encodeRecords rs')) := by
        have hrt := readBigSize_writeBigSize t ht
          (writeBigSize v.length ++ (v ++ encodeRecords rs'))
        rw [hw] at hrt
        simpa [List.append_assoc] using hrt
      rw [hr1]
      simp only
      rw [if_neg (by omega)]
      have hr2 : readBigSize (writeBigSize v.length ++ (v ++ encodeRecords rs'))
          = some (v.length, v ++ encodeRecords rs') := by
        exact readBigSize_writeBigSize v.length (by omega) _
      rw [hr2]
      simp only
      rw [if_neg (by omega)]
      rw [if_neg (by simp)]
      rw [take_len_append, drop_len_append]
      have hlen : (encodeRecords rs').length < f := by
        have h1 : 0 < (writeBigSize t).length := by
          cases hwt : writeBigSize t with
          | nil => exact absurd hwt (writeBigSize_ne_nil t)
          | cons _ _ => simp
        have h2 : 0 < (writeBigSize v.length).length := by
          cases hwt : writeBigSize v.length with
          | nil => exact absurd hwt (writeBigSize_ne_nil v.length)
          | cons _ _ => simp
        have hsh : (encodeRecords ((t, v) :: rs')).length
            = (writeBigSize t).length + (writeBigSize v.length).length
              + v.length + (encodeRecords rs').length := by
          simp [encodeRecords, encodeRecord, List.length_append]
          omega
        rw [hsh] at hf
        omega
      rw [ih f (t + 1) hasc'
        (fun p hp => hbound p (List.mem_cons_of_mem _ hp)) hlen]

theorem rewriteTlv_cons (r : Nat × List Nat) (rs : List (Nat × List Nat))
    (cid : Nat) :
    rewriteTlv (r :: rs) cid
      = (if r.1 = nextHopOnionType then (r.1, be8 cid) else r)
        :: rewriteTlv rs cid := rfl

theorem rewriteKey (r : Nat × List Nat) (cid : Nat) :
    (if r.1 = nextHopOnionType then (r.1, be8 cid) else r).1 = r.1 := by
  split <;> rfl

/-- Replacing the next-hop value keeps the types, hence their strict
ascension. -/
theorem rewriteTlv_ascending (cid : Nat) :
    ∀ m rs, AscendingFrom m rs → AscendingFrom m (rewriteTlv rs cid) := by
  intro m rs
  induction rs generalizing m with
  | nil => intro h; exact h
  | cons r rs' ih =>
    intro h
    obtain ⟨hm, h'⟩ := h
    rw [rewriteTlv_cons]
    refine ⟨?_, ?_⟩
    · rw [rewriteKey]; exact hm
    · rw [rewriteKey]; exact ih _ h'

/-- Replacing the next-hop value keeps the record bounds (the new
value is the 8-byte channel id). -/
theorem rewriteTlv_bounds (cid : Nat) (rs : List (Nat × List Nat))
    (hb : ∀ p ∈ rs, p.1 < 18446744073709551616 ∧ p.2.length ≤ 65535) :
    ∀ p ∈ rewriteTlv rs cid,
      p.1 < 18446744073709551616 ∧ p.2.length ≤ 65535 := by
  intro p hp
  simp only [rewriteTlv, List.mem_map] at hp
  obtain ⟨q, hq, rfl⟩ := hp
  have hqb := hb q hq
  split
  · exact ⟨hqb.1, by simp [be8]⟩
  · exact hqb

/-- Sorting a type-ascending record list is the identity, so the Go
map's iteration order is immaterial after `tlv.SortRecords`. -/
theorem sortRecs_eq_of_ascending :
    ∀ m rs, AscendingFrom m rs → sortRecs rs = rs := by
  intro m rs
  induction rs generalizing m with
  | nil => intro _; rfl
  | cons r rs' ih =>
    intro h
    obtain ⟨hm, h'⟩ := h
    show insertRec r (sortRecs rs') = r :: rs'
    rw [ih _ h']
    cases rs' with
    | nil => rfl
    | cons x xs =>
      obtain ⟨hx, _⟩ := h'
      simp only [insertRec]
      rw [if_pos (by omega)]

/-- A type-ascending record list passes the `tlv.NewStream` check. -/
theorem strictAscendB_of_ascending :
    ∀ m rs, AscendingFrom m rs → strictAscendB rs = true := by
  intro m rs
  induction rs generalizing m with
  | nil => intro _; rfl
  | cons r rs' ih =>
    intro h
    obtain ⟨hm, h'⟩ := h
    cases rs' with
    | nil => rfl
    | cons x xs =>
      have hx := h'.1
      simp only [strictAscendB, Bool.and_eq_true, decide_eq_true_eq]
      exact ⟨by omega, ih _ h'⟩

/-- Central lemma about `encodePayloadWithNextHop` on a payload whose
inner TLV stream parses: the output is exactly the re-encoding of the
parsed records with the next-hop value replaced (and nothing else
changed, nothing inserted), and decoding the output returns those
rewritten records. -/
theorem encodePayload_spec (payload : List Nat) (cid : Nat)
    (recs : List (Nat × List Nat))
    (hb : ∀ b ∈ payload, b < 256)
    (h : decodePayload payload = some recs) :
    encodePayloadWithNextHop payload cid
      = some (encodeRecords (rewriteTlv recs cid)) ∧
    decodeTlvStream (encodeRecords (rewriteTlv recs cid)) 0
      = some (rewriteTlv recs cid) := by
  have hfacts : AscendingFrom 0 recs ∧
      ∀ p ∈ recs, p.1 < 18446744073709551616 ∧ p.2.length ≤ 65535 := by
    unfold decodePayload at h
    cases hrb : readBigSize payload with
    | none => rw [hrb] at h; simp at h
    | some p =>
      obtain ⟨n, rest⟩ := p
      rw [hrb] at h
      simp only at h
      split at h
      · simp at h
      · have hrest : ∀ b ∈ rest, b < 256 := (readBigSize_sound _ _ _ hb hrb).2.1
        have htake : ∀ b ∈ rest.take n, b < 256 := fun b hbr =>
          hrest b (List.take_subset _ _ hbr)
        unfold decodeTlvStream at h
        exact ⟨decodeTlvGo_ascending _ _ _ _ h,
          decodeTlvGo_bounds _ _ _ _ htake h⟩
  have hasc := rewriteTlv_ascending cid 0 recs hfacts.1
  have hbound := rewriteTlv_bounds cid recs hfacts.2
  have hsort : sortRecs (rewriteTlv recs cid) = rewriteTlv recs cid :=
    sortRecs_eq_of_ascending 0 _ hasc
  have hstrict : strictAscendB (rewriteTlv recs cid) = true :=
    strictAscendB_of_ascending 0 _ hasc
  constructor
  · unfold encodePayloadWithNextHop
    rw [h]
    simp only [hsort, hstrict, if_true]
  · unfold decodeTlvStream
    exact decodeTlvGo_encodeRecords _ _ _ hasc hbound (by omega)

/-! ### Interceptor data model

Protobuf messages (`proto.HtlcAccepted`, `proto.HtlcResolution`) keep
the fields this file reads or writes.  Hex-encoded wire strings are
`List Char`; numeric wire fields are `Nat`. -/

/-- Fields of `proto.HtlcAccepted.Htlc` read by the interceptor. -/
structure Htlc where
  paymentHash : List Char
  amountMsat : Nat
  cltvExpiry : Nat
  cltvExpiryRelative : Nat
deriving DecidableEq

/-- Fields of `proto.HtlcAccepted.Onion` read by the interceptor. -/
structure Onion where
  payload : List Char
  shortChannelId : Nat
  forwardMsat : Nat
  outgoingCltvValue : Nat
deriving DecidableEq

/-- Inbound event `proto.HtlcAccepted`. -/
structure HtlcAccepted where
  correlationid : Nat
  htlc : Htlc
  onion : Onion
deriving DecidableEq

/-- Outcome part of `proto.HtlcResolution`: `HtlcContinue` with its
optional `ForwardTo` and `Payload` fields, or `HtlcFail` with a
failure-message code string. -/
inductive HtlcOutcome where
  | cont (forwardTo : Option (List Char)) (payload : Option (List Char))
  | fail (failureMessage : String)
deriving DecidableEq

/-- Outbound message `proto.HtlcResolution`. -/
structure HtlcResolution where
  correlationid : Nat
  outcome : HtlcOutcome
deriving DecidableEq

/-- Modelled from the spec: the internal failure reasons
(`interceptFailureCode`, declared outside this file).  The Go type is
an integer enumeration, so unrecognized values are representable. -/
inductive InterceptFailureCode where
  | temporaryChannelFailure
  | temporaryNodeFailure
  | incorrectOrUnknownPaymentDetails
  | other (n : Nat)
deriving DecidableEq

/-- Modelled from the spec: the decision action tag
(`interceptAction`, declared outside this file).  A closed set of
three known values over an integer type, so unrecognized or default
values are representable. -/
inductive InterceptAction where
  | resume
  | resumeWithOnionAction
  | failHtlcWithCode
  | other (n : Nat)
deriving DecidableEq

/-- Funding outpoint (`wire.OutPoint`): 32-byte transaction id plus
output index. -/
structure OutPoint where
  hash : List Nat
  index : Nat
deriving DecidableEq

/-- Modelled from the spec: the fields of `interceptResult` (declared
outside this file) that `cln_interceptor.go` reads: the action tag,
the failure code, the target channel's short id and its funding
outpoint. -/
structure InterceptResult where
  action : InterceptAction
  failureCode : InterceptFailureCode
  channelId : Nat
  channelPoint : OutPoint
deriving DecidableEq

/-- The decision collaborator `intercept(client, config, nextHop,
paymentHash, amountMsat, outgoingCltv, cltvExpiry)`, abstracted over
its first two (ambient) arguments. -/
def DecisionFun : Type :=
  String → List Nat → Nat → Nat → Nat → InterceptResult

/-! ### Resolution builders -/

/-- Model of `ClnHtlcInterceptor.mapFailureCode`: total, with the
`default` arm of the Go switch mapping every unrecognized code to
"1007". -/
def mapFailureCode : InterceptFailureCode → String
  | .temporaryChannelFailure => "1007"
  | .temporaryNodeFailure => "2002"
  | .incorrectOrUnknownPaymentDetails => "400F"
  | .other _ => "1007"

/-- Model of `ClnHtlcInterceptor.defaultResolution`: an empty
`HtlcContinue` under the event's correlation id. -/
def defaultResolution (request : HtlcAccepted) : HtlcResolution :=
  { correlationid := request.correlationid
    outcome := .cont none none }

/-- Model of `ClnHtlcInterceptor.failWithCode`. -/
def failWithCode (request : HtlcAccepted) (code : InterceptFailureCode) :
    HtlcResolution :=
  { correlationid := request.correlationid
    outcome := .fail (mapFailureCode code) }

/-- Model of `lnwire.NewChanIDFromOutPoint`: the funding txid with its
last two bytes XOR-ed with the big-endian output index. -/
def chanIdFromOutPoint (op : OutPoint) : List Nat :=
  op.hash.enum.map fun bi =>
    if bi.1 = 30 then bi.2 ^^^ (op.index / 256 % 256)
    else if bi.1 = 31 then bi.2 ^^^ (op.index % 256)
    else bi.2

/-- Model of `ClnHtlcInterceptor.resumeWithOnion`: hex-decode the
onion payload, rewrite it with the target channel id, and answer
`HtlcContinue` with the new payload and the wire channel id; on either
failure fall back to `failWithCode` with
`FAILURE_TEMPORARY_CHANNEL_FAILURE`. -/
def resumeWithOnion (request : HtlcAccepted) (ir : InterceptResult) :
    HtlcResolution :=
  match hexDecodeString request.onion.payload with
  | none => failWithCode request .temporaryChannelFailure
  | some payload =>
    match encodePayloadWithNextHop payload ir.channelId with
    | none => failWithCode request .temporaryChannelFailure
    | some newPayload =>
      { correlationid := request.correlationid
        outcome := .cont (some (hexEncode (chanIdFromOutPoint ir.channelPoint)))
          (some (hexEncode newPayload)) }

/-- The `switch interceptResult.action` inside the per-event
goroutine: `INTERCEPT_RESUME` falls through to the `default` arm, so
everything except the two named actions sends the default
resolution. -/
def buildResolution (request : HtlcAccepted) (ir : InterceptResult) :
    HtlcResolution :=
  match ir.action with
  | .resumeWithOnionAction => resumeWithOnion request ir
  | .failHtlcWithCode => failWithCode request ir.failureCode
  | _ => defaultResolution request

/-! ### The per-event goroutine (`intercept`, lines 165-189)

The goroutine hex-decodes the payment hash; on failure it sends the
default resolution and calls `doneWg.Done()`, and — the `if` body has
no `return` — then still calls the decision function, sends a second
resolution through the `switch`, and calls `doneWg.Done()` again. -/

/-- Observable effects of one goroutine run: resolutions sent on the
stream in order, number of `doneWg.Done()` calls, number of calls of
the decision function. -/
structure HandlerTrace where
  sent : List HtlcResolution
  doneCount : Nat
  decisionCalls : Nat
deriving DecidableEq

/-- Model of the goroutine body spawned per event.  `hexDecodeGo`
also yields the partially decoded bytes that Go's `hex.DecodeString`
returns alongside its error, because the missing `return` lets them
flow into the decision function. -/
def handleHtlc (decision : DecisionFun) (nextHop : String)
    (request : HtlcAccepted) : HandlerTrace :=
  let dec := hexDecodeGo request.htlc.paymentHash
  let pre : List HtlcResolution × Nat :=
    if dec.2 then ([], 0) else ([defaultResolution request], 1)
  let ir := decision nextHop dec.1 request.onion.forwardMsat
    request.onion.outgoingCltvValue request.htlc.cltvExpiry
  { sent := pre.1 ++ [buildResolution request ir]
    doneCount := pre.2 + 1
    decisionCalls := 1 }

/-! ### Next-hop label lookup (`intercept`, lines 137-150)

The Go code initializes `nextHop` to "<unknown>" and walks the
channels returned by `client.GetChannel` only inside
`if err != nil { ... }` — that is, only when the lookup FAILED. -/

/-- The `for _, c := range channels` body: first channel touching the
local node's public key names the counterparty. -/
def nextHopScan : List (String × String) → String → String
  | [], _ => "<unknown>"
  | c :: rest, pubkey =>
    if c.1 = pubkey then c.2
    else if c.2 = pubkey then c.1
    else nextHopScan rest pubkey

/-- Model of the label computation: `lookupErr` is whether
`GetChannel` returned a non-nil error; channels are (source,
destination) public-key pairs.  Faithful to the inverted condition in
the source: the scan only runs when the lookup errored. -/
def nextHopFromLookup (channels : List (String × String)) (lookupErr : Bool)
    (pubkey : String) : String :=
  if lookupErr then nextHopScan channels pubkey else "<unknown>"

/-! ### Interleaving model of the receive loop and `Stop`

State machine covering `intercept`'s inner receive loop (lines
106-190) and `Stop` (lines 196-206).  One step is one atomic action of
either the loop goroutine, a per-event goroutine, `Stop`'s caller, or
the environment delivering an event on the transport.  Events are
identified by numbers. -/

/-- Program counter of the receive-loop goroutine: about to run the
loop-top checks, blocked inside `Recv`, or returned. -/
inductive LoopPos where
  | check
  | recv
  | exited
deriving DecidableEq

/-- Progress of `Stop`: not called, flag set and blocked in
`doneWg.Wait()`, or returned (after `cancel()`). -/
inductive StopPos where
  | idle
  | draining
  | finished
deriving DecidableEq

/-- Shared state of the interceptor plus bookkeeping of event fates.
`inFlight` is the `doneWg` counter; `pending` are events at the
transport not yet returned by `Recv`; `dispatched` are events handed
to a goroutine; `resolved` are events whose resolution was sent;
`arrivedAfterStop` records events that arrived once `stopRequested`
was already set; `cancelSawInFlight` records the `doneWg` counter at
the moment `cancel()` ran. -/
structure SysState where
  stopRequested : Bool
  cancelled : Bool
  inFlight : Nat
  loopAt : LoopPos
  pending : List Nat
  dispatched : List Nat
  resolved : List Nat
  arrivedAfterStop : List Nat
  stopAt : StopPos
  cancelSawInFlight : Option Nat
deriving DecidableEq

/-- Atomic actions of the system. -/
inductive SysLabel where
  | arrive (e : Nat)
  | loopObserve
  | recvDeliver
  | taskFinish (e : Nat)
  | stopCall
  | stopFinish
deriving DecidableEq

/-- One interleaved step; `none` when the action is not enabled.

* `arrive e`: the node delivers event `e` to the transport.
* `loopObserve`: the loop top (lines 107-121): under a cancelled
  context or a requested stop the loop returns, otherwise it blocks in
  `Recv`.
* `recvDeliver`: `Recv` returns the oldest pending event (line 123);
  the loop logs, runs `doneWg.Add(1)` and spawns the goroutine (lines
  165-166), then returns to the loop top.  Nothing here re-checks
  `stopRequested`: the flag is only read at `loopObserve`.
* `taskFinish e`: a spawned goroutine completes: resolution sent and
  `doneWg.Done()` run.
* `stopCall`: line 198, `stopRequested = true`, then `Stop` blocks in
  `doneWg.Wait()`.
* `stopFinish`: `doneWg.Wait()` returns (counter zero) and line 204
  runs `cancel()`. -/
def sysStep (s : SysState) (l : SysLabel) : Option SysState :=
  match l with
  | .arrive e =>
    some { s with
      pending := s.pending ++ [e]
      arrivedAfterStop :=
        if s.stopRequested then s.arrivedAfterStop ++ [e]
        else s.arrivedAfterStop }
  | .loopObserve =>
    match s.loopAt with
    | .check =>
      if s.cancelled || s.stopRequested then some { s with loopAt := .exited }
      else some { s with loopAt := .recv }
    | _ => none
  | .recvDeliver =>
    match s.loopAt, s.pending with
    | .recv, e :: rest =>
      if s.cancelled then none
      else some { s with
        loopAt := .check
        pending := rest
        inFlight := s.inFlight + 1
        dispatched := s.dispatched ++ [e] }
    | _, _ => none
  | .taskFinish e =>
    if e ∈ s.dispatched ∧ e ∉ s.resolved then
      some { s with inFlight := s.inFlight - 1, resolved := s.resolved ++ [e] }
    else none
  | .stopCall =>
    match s.stopAt with
    | .idle => some { s with stopRequested := true, stopAt := .draining }
    | _ => none
  | .stopFinish =>
    match s.stopAt with
    | .draining =>
      if s.inFlight = 0 then
        some { s with
          cancelled := true
          stopAt := .finished
          cancelSawInFlight := some s.inFlight }
      else none
    | _ => none

/-- Run a list of labels from a state, failing when a label is not
enabled. -/
def sysRun (s : SysState) : List SysLabel → Option SysState
  | [] => some s
  | l :: ls =>
    match sysStep s l with
    | none => none
    | some s' => sysRun s' ls

/-- State on entry of the receive loop: running, nothing in flight,
stop not requested. -/
def sysInit : SysState :=
  { stopRequested := false
    cancelled := false
    inFlight := 0
    loopAt := .check
    pending := []
    dispatched := []
    resolved := []
    arrivedAfterStop := []
    stopAt := .idle
    cancelSawInFlight := none }

/-- Invariant: a non-idle `Stop` has set the flag; cancellation
implies the flag was set and the counter was zero when `cancel()` ran;
only dispatched events get resolved. -/
def SysInv (s : SysState) : Prop :=
  (s.stopAt ≠ .idle → s.stopRequested = true) ∧
  (s.cancelled = true → s.stopRequested = true ∧ s.cancelSawInFlight = some 0) ∧
  (∀ e ∈ s.resolved, e ∈ s.dispatched)

theorem sysStep_inv (s s' : SysState) (l : SysLabel) (hinv : SysInv s)
    (h : sysStep s l = some s') : SysInv s' := by
  obtain ⟨i1, i2, i3⟩ := hinv
  cases l with
  | arrive e =>
    simp only [sysStep, Option.some.injEq] at h
    subst h
    exact ⟨i1, i2, i3⟩
  | loopObserve =>
    simp only [sysStep] at h
    split at h
    · split at h <;>
      · simp only [Option.some.injEq] at h
        subst h
        exact ⟨i1, i2, i3⟩
    · simp at h
  | recvDeliver =>
    simp only [sysStep] at h
    split at h
    case _ e rest heq =>
      split at h
      · simp at h
      · simp only [Option.some.injEq] at h
        subst h
        refine ⟨i1, i2, fun x hx => ?_⟩
        exact List.mem_append_left _ (i3 x hx)
    case _ => simp at h
  | taskFinish e =>
    simp only [sysStep] at h
    split at h
    case _ hcond =>
      simp only [Option.some.injEq] at h
      subst h
      refine ⟨i1, i2, fun x hx => ?_⟩
      rcases List.mem_append.mp hx with hx | hx
      · exact i3 x hx
      · simp only [List.mem_singleton] at hx
        subst hx
        exact hcond.1
    · simp at h
  | stopCall =>
    simp only [sysStep] at h
    split at h
    · simp only [Option.some.injEq] at h
      subst h
      exact ⟨fun _ => rfl, fun hc => ⟨rfl, (i2 hc).2⟩, i3⟩
    · simp at h
  | stopFinish =>
    simp only [sysStep] at h
    split at h
    case _ hdr =>
      split at h
      case _ hzero =>
        simp only [Option.some.injEq] at h
        subst h
        refine ⟨fun _ => i1 (by simp [hdr]), fun _ => ⟨i1 (by simp [hdr]), ?_⟩, i3⟩
        simp [hzero]
      · simp at h
    · simp at h

theorem sysInit_inv : SysInv sysInit := by
  refine ⟨?_, ?_, ?_⟩ <;> simp [sysInit, SysInv]

theorem sysRun_inv (tr : List SysLabel) :
    ∀ s s', SysInv s → sysRun s tr = some s' → SysInv s' := by
  induction tr with
  | nil =>
    intro s s' hinv h
    simp only [sysRun, Option.some.injEq] at h
    subst h
    exact hinv
  | cons l ls ih =>
    intro s s' hinv h
    simp only [sysRun] at h
    cases hstep : sysStep s l with
    | none => rw [hstep] at h; simp at h
    | some s₁ =>
      rw [hstep] at h
      exact ih s₁ s' (sysStep_inv s s₁ l hinv hstep) h

/-- Once the receive loop has returned it never moves again and never
dispatches another event. -/
theorem sysStep_exited (s s' : SysState) (l : SysLabel)
    (hex : s.loopAt = LoopPos.exited) (h : sysStep s l = some s') :
    s'.loopAt = LoopPos.exited ∧ s'.dispatched = s.dispatched := by
  cases l with
  | arrive e =>
    simp only [sysStep, Option.some.injEq] at h
    subst h
    exact ⟨hex, rfl⟩
  | loopObserve =>
    simp only [sysStep] at h
    split at h
    case _ heq => rw [hex] at heq; cases heq
    · simp at h
  | recvDeliver =>
    simp only [sysStep] at h
    split at h
    · rename_i hloop hpend
      rw [hex] at hloop
      cases hloop
    · simp at h
  | taskFinish e =>
    simp only [sysStep] at h
    split at h
    · simp only [Option.some.injEq] at h
      subst h
      exact ⟨hex, rfl⟩
    · simp at h
  | stopCall =>
    simp only [sysStep] at h
    split at h
    · simp only [Option.some.injEq] at h
      subst h
      exact ⟨hex, rfl⟩
    · simp at h
  | stopFinish =>
    simp only [sysStep] at h
    split at h
    · split at h
      · simp only [Option.some.injEq] at h
        subst h
        exact ⟨hex, rfl⟩
      · simp at h
    · simp at h

theorem sysRun_exited (tr : List SysLabel) :
    ∀ s s', s.loopAt = LoopPos.exited → sysRun s tr = some s' →
      s'.loopAt = LoopPos.exited ∧ s'.dispatched = s.dispatched := by
  induction tr with
  | nil =>
    intro s s' hex h
    simp only [sysRun, Option.some.injEq] at h
    subst h
    exact ⟨hex, rfl⟩
  | cons l ls ih =>
    intro s s' hex h
    simp only [sysRun] at h
    cases hstep : sysStep s l with
    | none => rw [hstep] at h; simp at h
    | some s₁ =>
      rw [hstep] at h
      have h1 := sysStep_exited s s₁ l hex hstep
      have h2 := ih s₁ s' h1.1 h
      exact ⟨h2.1, h2.2.trans h1.2⟩

/-! ### Reconnect loop and the one-shot readiness barrier
(`intercept`, lines 82-114)

The outer loop of `intercept` is driven by the outcomes of successive
`pluginClient.HtlcStream` attempts, abstracted as a list of booleans
(`true` = the stream opened and the receive loop was entered).  The
local `inited` flag starts `false`; the first loop entry with `inited`
still false runs `initWg.Done()` once and sets it; the deferred
function on exit runs `initWg.Done()` only when `inited` is still
false. -/

/-- Barrier firings of one `intercept` run over a script of connection
attempts: per attempt whether `initWg.Done()` ran at that attempt, and
whether the deferred `initWg.Done()` ran on exit. -/
def interceptAttempts : List Bool → Bool → List Bool × Bool
  | [], inited => ([], !inited)
  | a :: rest, inited =>
    let fire := a && !inited
    let next := interceptAttempts rest (inited || a)
    (fire :: next.1, next.2)

theorem interceptAttempts_inited (rest : List Bool) :
    interceptAttempts rest true = (List.replicate rest.length false, false) := by
  induction rest with
  | nil => rfl
  | cons a t ih => simp [interceptAttempts, ih, List.replicate_succ]

/-! ### Claim theorems -/

/-- Concrete event whose payment hash "zz" is not valid hex. -/
def badHashRequest : HtlcAccepted :=
  { correlationid := 42
    htlc :=
      { paymentHash := ['z', 'z']
        amountMsat := 5
        cltvExpiry := 90
        cltvExpiryRelative := 40 }
    onion :=
      { payload := []
        shortChannelId := 3
        forwardMsat := 900
        outgoingCltvValue := 50 } }

/-- A decision function always answering `INTERCEPT_RESUME`. -/
def resumeDecision : DecisionFun := fun _ _ _ _ _ =>
  { action := .resume
    failureCode := .other 0
    channelId := 0
    channelPoint := { hash := [], index := 0 } }

/-- Claim C1: every `HtlcEvent` is answered by exactly one
`Resolution` with the event's correlation id, also when the payment
hash fails hex decoding.  The code violates this: the error branch at
the hex decode has no `return`, so after sending the default
resolution (and calling `doneWg.Done()`) the goroutine falls through,
runs the decision anyway and sends a second resolution — two
resolutions for one event.  Both do carry the event's correlation
id. -/
theorem c1_bad_hash_sends_two_resolutions :
    (handleHtlc resumeDecision "<unknown>" badHashRequest).sent.length = 2 ∧
    (handleHtlc resumeDecision "<unknown>" badHashRequest).sent
      = [defaultResolution badHashRequest, defaultResolution badHashRequest] ∧
    ∀ r ∈ (handleHtlc resumeDecision "<unknown>" badHashRequest).sent,
      r.correlationid = 42 := by
  refine ⟨by decide, by decide, by decide⟩

/-- Concrete event whose payment hash "q" (odd length, bad digit) is
not valid hex. -/
def badHashRequest2 : HtlcAccepted :=
  { correlationid := 43
    htlc :=
      { paymentHash := ['q']
        amountMsat := 6
        cltvExpiry := 95
        cltvExpiryRelative := 41 }
    onion :=
      { payload := []
        shortChannelId := 4
        forwardMsat := 901
        outgoingCltvValue := 51 } }

/-- A decision function always answering `INTERCEPT_FAIL_HTLC_WITH_CODE`
with `FAILURE_TEMPORARY_NODE_FAILURE`. -/
def failNodeDecision : DecisionFun := fun _ _ _ _ _ =>
  { action := .failHtlcWithCode
    failureCode := .temporaryNodeFailure
    channelId := 0
    channelPoint := { hash := [], index := 0 } }

/-- Claim C3: on a payment hash that fails hex decoding the handler
should send the unmodified-continue resolution, decrement the
in-flight counter exactly once, and not invoke the decision function.
The code does send the unmodified-continue resolution first, but the
missing `return` makes it call `doneWg.Done()` twice and invoke the
decision function anyway (here producing a second, fail
resolution). -/
theorem c3_bad_hash_double_done_and_decision_runs :
    (handleHtlc failNodeDecision "<unknown>" badHashRequest2).doneCount = 2 ∧
    (handleHtlc failNodeDecision "<unknown>" badHashRequest2).decisionCalls = 1 ∧
    (handleHtlc failNodeDecision "<unknown>" badHashRequest2).sent
      = [defaultResolution badHashRequest2,
         { correlationid := 43, outcome := .fail "2002" }] := by
  refine ⟨by decide, by decide, by decide⟩

/-- When no record has the next-hop type, the rewrite loop leaves the
record set untouched: nothing is inserted. -/
theorem rewriteTlv_id_of_absent (recs : List (Nat × List Nat)) (cid : Nat) :
    (∀ p ∈ recs, p.1 ≠ nextHopOnionType) → rewriteTlv recs cid = recs := by
  induction recs with
  | nil => intro _; rfl
  | cons r rs ih =>
    intro h
    rw [rewriteTlv_cons, if_neg (h r (by simp)), ih fun p hp => h p (by simp [hp])]

/-- Claim C2 (amended): for every payload that parses, the rewriter
returns exactly the parsed record set re-encoded in ascending type
order with the next-hop type's value replaced by the 8-byte big-endian
channel id WHEN THE TYPE IS PRESENT, all other records (unknown types
included) unchanged; when the next-hop type is absent nothing is
inserted and the record set is returned unchanged.  Decoding the
output again yields that rewritten record set. -/
theorem c2_rewrite_replaces_never_inserts (payload : List Nat) (cid : Nat)
    (recs : List (Nat × List Nat))
    (hbytes : ∀ b ∈ payload, b < 256)
    (hparse : decodePayload payload = some recs) :
    encodePayloadWithNextHop payload cid
      = some (encodeRecords (rewriteTlv recs cid)) ∧
    decodeTlvStream (encodeRecords (rewriteTlv recs cid)) 0
      = some (rewriteTlv recs cid) ∧
    ((∀ p ∈ recs, p.1 ≠ nextHopOnionType) → rewriteTlv recs cid = recs) := by
  have hspec := encodePayload_spec payload cid recs hbytes hparse
  exact ⟨hspec.1, hspec.2, rewriteTlv_id_of_absent recs cid⟩

/-- Claim C2 witness: payload `[9, 2,1,9, 6,1,0, 200,1,5]` (length
prefix 9, records of types 2, 6 and the unknown type 200) rewritten
with channel id 42. -/
theorem c2_rewrite_replaces_never_inserts_witness :
    decodePayload [9, 2, 1, 9, 6, 1, 0, 200, 1, 5]
      = some [(2, [9]), (6, [0]), (200, [5])] ∧
    encodePayloadWithNextHop [9, 2, 1, 9, 6, 1, 0, 200, 1, 5] 42
      = some (encodeRecords (rewriteTlv [(2, [9]), (6, [0]), (200, [5])] 42)) ∧
    decodeTlvStream
        (encodeRecords (rewriteTlv [(2, [9]), (6, [0]), (200, [5])] 42)) 0
      = some (rewriteTlv [(2, [9]), (6, [0]), (200, [5])] 42) ∧
    rewriteTlv [(2, [9]), (6, [0]), (200, [5])] 42
      = [(2, [9]), (6, [0, 0, 0, 0, 0, 0, 0, 42]), (200, [5])] := by
  have h := c2_rewrite_replaces_never_inserts [9, 2, 1, 9, 6, 1, 0, 200, 1, 5]
    42 [(2, [9]), (6, [0]), (200, [5])] (by decide) (by decide)
  exact ⟨by decide, h.1, h.2.1, by decide⟩

/-- Claim C2 counterexample: the payload `[3, 2,1,0]` parses (one
record of type 2), the next-hop type 6 is absent, and the rewriter
output decodes back WITHOUT any type-6 record: contrary to the claim,
no next-hop record is inserted when the type is absent. -/
theorem c2_counterexample_no_insertion :
    decodePayload [3, 2, 1, 0] = some [(2, [0])] ∧
    encodePayloadWithNextHop [3, 2, 1, 0] 5 = some [2, 1, 0] ∧
    decodeTlvStream [2, 1, 0] 0 = some [(2, [0])] ∧
    ∀ p ∈ [((2 : Nat), [(0 : Nat)])], p.1 ≠ nextHopOnionType := by
  refine ⟨by decide, by decide, by decide, by decide⟩

/-- Claim C4: a payload whose leading varint declares more inner bytes
than are available makes `encodePayloadWithNextHop` fail, and
`resumeWithOnion` then resolves the event with a fail resolution
carrying code "1007" — never a continue and never a rewritten
payload. -/
theorem c4_truncated_payload_fails_1007 (payload : List Nat) (n : Nat)
    (rest : List Nat) (request : HtlcAccepted) (ir : InterceptResult)
    (hvar : readBigSize payload = some (n, rest))
    (hshort : rest.length < n)
    (hpayload : hexDecodeString request.onion.payload = some payload) :
    encodePayloadWithNextHop payload ir.channelId = none ∧
    resumeWithOnion request ir
      = { correlationid := request.correlationid
          outcome := HtlcOutcome.fail "1007" } := by
  have henc : ∀ cid, encodePayloadWithNextHop payload cid = none := by
    intro cid
    unfold encodePayloadWithNextHop decodePayload
    rw [hvar]
    simp [hshort]
  refine ⟨henc _, ?_⟩
  simp only [resumeWithOnion, hpayload, henc]
  rfl

/-- The event for the C4 witness: its onion payload "050102"
hex-decodes to `[5, 1, 2]`, whose leading varint declares 5 inner
bytes while only 2 follow. -/
def c4Request : HtlcAccepted :=
  { correlationid := 7
    htlc :=
      { paymentHash := ['a', 'b']
        amountMsat := 1
        cltvExpiry := 100
        cltvExpiryRelative := 40 }
    onion :=
      { payload := ['0', '5', '0', '1', '0', '2']
        shortChannelId := 1
        forwardMsat := 1000
        outgoingCltvValue := 60 } }

/-- The decision result for the C4 witness. -/
def c4Result : InterceptResult :=
  { action := .resumeWithOnionAction
    failureCode := .other 0
    channelId := 9
    channelPoint := { hash := List.replicate 32 0, index := 0 } }

/-- Claim C4 witness at the concrete truncated payload `[5, 1, 2]`. -/
theorem c4_truncated_payload_fails_1007_witness :
    readBigSize [5, 1, 2] = some (5, [1, 2]) ∧
    encodePayloadWithNextHop [5, 1, 2] 9 = none ∧
    resumeWithOnion c4Request c4Result
      = { correlationid := 7, outcome := HtlcOutcome.fail "1007" } := by
  have h := c4_truncated_payload_fails_1007 [5, 1, 2] 5 [1, 2] c4Request
    c4Result (by decide) (by decide) (by decide)
  exact ⟨by decide, h.1, h.2⟩

/-- Interleaving in which event 1 arrives while the loop is already
blocked in `Recv` and `Stop` has just set the flag: the loop's last
flag check happened before the `Recv`, so the event is still
dispatched and resolved. -/
def c5ViolatingTrace : List SysLabel :=
  [.loopObserve, .stopCall, .arrive 1, .recvDeliver, .taskFinish 1, .stopFinish]

/-- Claim C5 counterexample: a legal interleaving in which an event
arriving AFTER `Stop` was requested is nevertheless resolved (and
`Stop` completes): the stop flag is only read at the top of the loop,
so an event delivered by a `Recv` that was already blocking when the
flag was set is still dispatched and answered. -/
theorem c5_counterexample_post_stop_event_resolved :
    (sysRun sysInit c5ViolatingTrace).map SysState.arrivedAfterStop
      = some [1] ∧
    (sysRun sysInit c5ViolatingTrace).map SysState.resolved = some [1] ∧
    (sysRun sysInit c5ViolatingTrace).map SysState.stopAt
      = some StopPos.finished := by
  refine ⟨by decide, by decide, by decide⟩

/-- Claim C5 (amended): `Stop` sets the stop flag, waits for the
in-flight counter to reach zero, and only then cancels the context —
in every reachable state, cancellation implies the flag was set and
the counter was zero at `cancel()`.  Once the receive loop observes
the flag and exits, no further event is dispatched, and only events
dispatched before the exit are ever resolved.  (An event arriving
after `Stop` but delivered by a `Recv` already in progress may still
be resolved — see the counterexample — so "arriving after the loop
exits", not "arriving after Stop", is what is never resolved.) -/
theorem c5_stop_drains_then_cancels (tr : List SysLabel) (s : SysState)
    (h : sysRun sysInit tr = some s) :
    (s.cancelled = true → s.stopRequested = true ∧ s.cancelSawInFlight = some 0) ∧
    (s.loopAt = LoopPos.exited →
      ∀ tr₂ s₂, sysRun s tr₂ = some s₂ →
        s₂.dispatched = s.dispatched ∧ ∀ e ∈ s₂.resolved, e ∈ s.dispatched) := by
  have hinv := sysRun_inv tr sysInit s sysInit_inv h
  refine ⟨hinv.2.1, ?_⟩
  intro hex tr₂ s₂ h₂
  have hfrozen := sysRun_exited tr₂ s s₂ hex h₂
  have hinv2 := sysRun_inv tr₂ s s₂ hinv h₂
  exact ⟨hfrozen.2, fun e he => hfrozen.2 ▸ hinv2.2.2 e he⟩

/-- Claim C5 witness: after `[stopCall, stopFinish]` the flag is set
and `cancel()` saw a zero counter; after `[stopCall, loopObserve]` the
loop has exited and a later arrival is never dispatched. -/
theorem c5_stop_drains_then_cancels_witness :
    (∃ s, sysRun sysInit [SysLabel.stopCall, SysLabel.stopFinish] = some s ∧
      s.stopRequested = true ∧ s.cancelSawInFlight = some 0) ∧
    (∃ s s₂, sysRun sysInit [SysLabel.stopCall, SysLabel.loopObserve] = some s ∧
      sysRun s [SysLabel.arrive 5] = some s₂ ∧ s₂.dispatched = s.dispatched) := by
  constructor
  · refine ⟨_, rfl, ?_⟩
    exact (c5_stop_drains_then_cancels
      [SysLabel.stopCall, SysLabel.stopFinish] _ rfl).1 rfl
  · refine ⟨_, _, rfl, rfl, ?_⟩
    exact ((c5_stop_drains_then_cancels
      [SysLabel.stopCall, SysLabel.loopObserve] _ rfl).2 rfl
      [SysLabel.arrive 5] _ rfl).1

/-- Claim C6: the spec says a successful channel-graph lookup whose
channel touches the local public key yields the counterparty as the
next-hop label.  The code inverts the error check (`if err != nil`)
and walks the channel list only when the lookup FAILED, so on success
the label always stays "<unknown>" — even though the scan itself would
have found the counterparty. -/
theorem c6_successful_lookup_keeps_unknown_label :
    nextHopFromLookup [("02aaa", "02bbb")] false "02aaa" = "<unknown>" ∧
    nextHopScan [("02aaa", "02bbb")] "02aaa" = "02bbb" ∧
    nextHopFromLookup [] true "02aaa" = "<unknown>" := by
  refine ⟨by decide, by decide, by decide⟩

theorem count_true_replicate_false (n : Nat) :
    (List.replicate n false).count true = 0 := by
  induction n with
  | zero => rfl
  | succ k ih => simp [List.replicate_succ, List.count_cons, ih]

/-- Claim C7: over a script of K failed stream-open attempts followed
by a success and then anything, the readiness barrier (`initWg.Done`)
fires exactly once — at the first success, not during the failures,
not at any later reconnect, and not again at exit. -/
theorem c7_barrier_fires_once_after_first_success (K : Nat)
    (rest : List Bool) :
    interceptAttempts (List.replicate K false ++ true :: rest) false
      = (List.replicate K false ++ true :: List.replicate rest.length false,
         false) ∧
    (interceptAttempts (List.replicate K false ++ true :: rest) false).1.count
      true = 1 := by
  have hmain : interceptAttempts (List.replicate K false ++ true :: rest) false
      = (List.replicate K false ++ true :: List.replicate rest.length false,
         false) := by
    induction K with
    | zero =>
      simp only [List.replicate, List.nil_append]
      simp [interceptAttempts, interceptAttempts_inited rest]
    | succ k ih =>
      simp only [List.replicate_succ, List.cons_append]
      simp [interceptAttempts, ih]
  refine ⟨hmain, ?_⟩
  rw [hmain]
  simp [List.count_append, List.count_cons, count_true_replicate_false]

/-- Claim C8: the failure-code mapper is total: the three named codes
map to "1007", "2002" and "400F", and every other value falls to the
default arm returning "1007"; no input is an error. -/
theorem c8_mapFailureCode_total :
    mapFailureCode InterceptFailureCode.temporaryChannelFailure = "1007" ∧
    mapFailureCode InterceptFailureCode.temporaryNodeFailure = "2002" ∧
    mapFailureCode InterceptFailureCode.incorrectOrUnknownPaymentDetails
      = "400F" ∧
    ∀ n, mapFailureCode (InterceptFailureCode.other n) = "1007" :=
  ⟨rfl, rfl, rfl, fun _ => rfl⟩

/-- Claim C9: for every decision whose action tag is neither
`INTERCEPT_RESUME_WITH_ONION` nor `INTERCEPT_FAIL_HTLC_WITH_CODE` —
`INTERCEPT_RESUME` falls through to `default` — the dispatcher sends
the unmodified-continue resolution carrying the event's correlation
id; no error is possible. -/
theorem c9_unrecognized_action_resumes (request : HtlcAccepted)
    (ir : InterceptResult)
    (h1 : ir.action ≠ InterceptAction.resumeWithOnionAction)
    (h2 : ir.action ≠ InterceptAction.failHtlcWithCode) :
    buildResolution request ir = defaultResolution request ∧
    (buildResolution request ir).correlationid = request.correlationid ∧
    (buildResolution request ir).outcome = HtlcOutcome.cont none none := by
  have hb : buildResolution request ir = defaultResolution request := by
    unfold buildResolution
    cases ha : ir.action with
    | resume => rfl
    | resumeWithOnionAction => exact absurd ha h1
    | failHtlcWithCode => exact absurd ha h2
    | other n => rfl
  exact ⟨hb, by rw [hb]; rfl, by rw [hb]; rfl⟩

/-- Event for the C9 witness. -/
def c9Request : HtlcAccepted :=
  { correlationid := 11
    htlc :=
      { paymentHash := ['0', '0']
        amountMsat := 2
        cltvExpiry := 80
        cltvExpiryRelative := 30 }
    onion :=
      { payload := ['0', '0']
        shortChannelId := 2
        forwardMsat := 700
        outgoingCltvValue := 45 } }

/-- Decision with an unrecognized action value for the C9 witness. -/
def c9Result : InterceptResult :=
  { action := .other 12
    failureCode := .other 0
    channelId := 0
    channelPoint := { hash := [], index := 0 } }

/-- Claim C9 witness at the unrecognized action value 12. -/
theorem c9_unrecognized_action_resumes_witness :
    c9Result.action ≠ InterceptAction.resumeWithOnionAction ∧
    buildResolution c9Request c9Result = defaultResolution c9Request := by
  refine ⟨by decide, ?_⟩
  exact (c9_unrecognized_action_resumes c9Request c9Result (by decide)
    (by decide)).1

/-- Claim C10: the rewriter's output framing differs from the input's:
the output is only the bare re-encoded TLV records — the leading
BigSize length prefix is consumed and never re-emitted — and any input
bytes beyond the declared inner length (`trailing`) are silently
discarded without affecting success or output. -/
theorem c10_output_is_bare_stream_trailing_discarded (inner trailing : List Nat)
    (cid : Nat) (recs : List (Nat × List Nat))
    (hinner : ∀ b ∈ inner, b < 256) (htrail : ∀ b ∈ trailing, b < 256)
    (hlen : inner.length < 18446744073709551616)
    (hdec : decodeTlvStream inner 0 = some recs) :
    encodePayloadWithNextHop (writeBigSize inner.length ++ (inner ++ trailing))
        cid
      = some (encodeRecords (rewriteTlv recs cid)) := by
  have hb : ∀ b ∈ writeBigSize inner.length ++ (inner ++ trailing), b < 256 := by
    intro b hbm
    rcases List.mem_append.mp hbm with hbm | hbm
    · exact writeBigSize_bytes_lt _ b hbm
    · rcases List.mem_append.mp hbm with hbm | hbm
      · exact hinner b hbm
      · exact htrail b hbm
  have hparse : decodePayload (writeBigSize inner.length ++ (inner ++ trailing))
      = some recs := by
    unfold decodePayload
    rw [readBigSize_writeBigSize inner.length hlen]
    show (if (inner ++ trailing).length < inner.length then none
      else decodeTlvStream ((inner ++ trailing).take inner.length) 0)
      = some recs
    rw [if_neg (by simp only [List.length_append]; omega)]
    rw [take_len_append]
    exact hdec
  exact (encodePayload_spec _ cid recs hb hparse).1

/-- Claim C10 witness: inner stream `[2, 1, 9]` with trailing garbage
`[255, 255]` behind the declared length. -/
theorem c10_output_is_bare_stream_trailing_discarded_witness :
    decodeTlvStream [2, 1, 9] 0 = some [(2, [9])] ∧
    encodePayloadWithNextHop [3, 2, 1, 9, 255, 255] 7
      = some (encodeRecords (rewriteTlv [(2, [9])] 7)) ∧
    encodeRecords (rewriteTlv [(2, [9])] 7) = [2, 1, 9] := by
  have h := c10_output_is_bare_stream_trailing_discarded [2, 1, 9] [255, 255]
    7 [(2, [9])] (by decide) (by decide) (by decide) (by decide)
  refine ⟨by decide, ?_, by decide⟩
  simpa using h
